import Mathlib

/-!
Verification of the Face-Attendance core, shallowly embedded from the Python
source: the nearest-neighbor face matcher (src/recognition/face_recognizer.py),
the embedding registry over its DynamoDB faces table
(src/embeddings/manager.py), the two attendance ledgers
(src/attendance/logger.py and src/attendance/dynamodb_logger.py), and the
session orchestrator (src/core/system.py).

Python floats are modelled as real numbers; identities and source tags as
strings; the DynamoDB tables as association lists in backing-store scan order.
-/

/- ===== Matcher: src/recognition/face_recognizer.py ===== -/

/-- Euclidean (L2) distance between two vectors, as computed by
`np.linalg.norm(self.known_vectors - embedding, axis=1)` for one row. -/
noncomputable def edist (v w : List ℝ) : ℝ :=
  Real.sqrt ((List.zipWith (fun a b => (a - b) ^ 2) v w).sum)

/-- First index attaining the minimum of the list `x :: xs`; helper for
`argminList`. -/
noncomputable def argminFrom (x : ℝ) : List ℝ → ℕ
  | [] => 0
  | y :: ys => if x ≤ (y :: ys).getD (argminFrom y ys) 0 then 0 else argminFrom y ys + 1

/-- `np.argmin`: the first index attaining the minimum of the list
(0 for the empty list, on which the code never calls it). -/
noncomputable def argminList : List ℝ → ℕ
  | [] => 0
  | x :: xs => argminFrom x xs

/-- The matcher snapshot: `FaceRecognizer.__init__` stores the threshold, the
identity list `known_ids` and the vector matrix `known_vectors`, taken from the
embeddings dict in its iteration order; `known` holds the aligned pairs. -/
structure FaceRecognizer where
  threshold : ℝ
  known : List (String × List ℝ)

/-- The distance row `distances = np.linalg.norm(known_vectors - embedding, axis=1)`. -/
noncomputable def FaceRecognizer.distances (r : FaceRecognizer) (q : List ℝ) : List ℝ :=
  r.known.map (fun kv => edist kv.2 q)

/-- `FaceRecognizer.match_embedding`: empty snapshot gives ("Unknown", 1.0);
otherwise take the first-minimum index of the distance row and accept iff the
best distance is at most the threshold, else "Unknown" with that distance. -/
noncomputable def FaceRecognizer.matchEmbedding (r : FaceRecognizer) (q : List ℝ) :
    String × ℝ :=
  if r.known.length = 0 then ("Unknown", 1)
  else
    let ds := r.distances q
    let best := argminList ds
    let bestDist := ds.getD best 0
    if bestDist ≤ r.threshold then ((r.known.getD best ("Unknown", [])).1, bestDist)
    else ("Unknown", bestDist)

theorem argminFrom_lt_length (x : ℝ) (xs : List ℝ) :
    argminFrom x xs < (x :: xs).length := by
  induction xs generalizing x with
  | nil => simp [argminFrom]
  | cons y ys ih =>
    rw [argminFrom]
    by_cases h : x ≤ (y :: ys).getD (argminFrom y ys) 0
    · rw [if_pos h]; simp
    · rw [if_neg h, List.length_cons]
      exact Nat.succ_lt_succ (ih y)

theorem argminFrom_min (x : ℝ) (xs : List ℝ) :
    ∀ j < (x :: xs).length, (x :: xs).getD (argminFrom x xs) 0 ≤ (x :: xs).getD j 0 := by
  induction xs generalizing x with
  | nil =>
    intro j hj
    have hj0 : j = 0 := by simp only [List.length_cons, List.length_nil] at hj; omega
    subst hj0
    simp [argminFrom]
  | cons y ys ih =>
    intro j hj
    by_cases h : x ≤ (y :: ys).getD (argminFrom y ys) 0
    · simp only [argminFrom, if_pos h, List.getD_cons_zero]
      cases j with
      | zero => simp
      | succ k =>
        simp only [List.getD_cons_succ]
        exact le_trans h (ih y k (Nat.lt_of_succ_lt_succ hj))
    · simp only [argminFrom, if_neg h, List.getD_cons_succ]
      cases j with
      | zero =>
        simp only [List.getD_cons_zero]
        exact le_of_lt (lt_of_not_le h)
      | succ k =>
        simp only [List.getD_cons_succ]
        exact ih y k (Nat.lt_of_succ_lt_succ hj)

theorem argminFrom_first (x : ℝ) (xs : List ℝ) :
    ∀ j < argminFrom x xs, (x :: xs).getD (argminFrom x xs) 0 < (x :: xs).getD j 0 := by
  induction xs generalizing x with
  | nil => intro j hj; simp [argminFrom] at hj
  | cons y ys ih =>
    intro j hj
    by_cases h : x ≤ (y :: ys).getD (argminFrom y ys) 0
    · rw [argminFrom, if_pos h] at hj
      exact absurd hj (Nat.not_lt_zero j)
    · rw [argminFrom, if_neg h] at hj ⊢
      simp only [List.getD_cons_succ]
      cases j with
      | zero =>
        simp only [List.getD_cons_zero]
        exact lt_of_not_le h
      | succ k =>
        simp only [List.getD_cons_succ]
        exact ih y k (Nat.lt_of_succ_lt_succ hj)

theorem argminList_lt_length {l : List ℝ} (h : l ≠ []) : argminList l < l.length := by
  cases l with
  | nil => exact absurd rfl h
  | cons x xs => exact argminFrom_lt_length x xs

theorem argminList_min (l : List ℝ) :
    ∀ j < l.length, l.getD (argminList l) 0 ≤ l.getD j 0 := by
  cases l with
  | nil => intro j hj; simp at hj
  | cons x xs => exact argminFrom_min x xs

theorem argminList_first (l : List ℝ) :
    ∀ j < argminList l, l.getD (argminList l) 0 < l.getD j 0 := by
  cases l with
  | nil => intro j hj; simp [argminList] at hj
  | cons x xs => exact argminFrom_first x xs

theorem distances_length (r : FaceRecognizer) (q : List ℝ) :
    (r.distances q).length = r.known.length := by
  simp [FaceRecognizer.distances]

theorem distances_getD (r : FaceRecognizer) (q : List ℝ) (j : ℕ)
    (hj : j < r.known.length) :
    (r.distances q).getD j 0 = edist (r.known.getD j ("Unknown", [])).2 q := by
  have hj2 : j < (r.distances q).length := by
    rw [distances_length]; exact hj
  rw [List.getD_eq_getElem _ _ hj2, List.getD_eq_getElem _ _ hj]
  simp [FaceRecognizer.distances]

/-- Sample one-identity snapshot used to instantiate the matcher theorems. -/
noncomputable def sampleRecognizer : FaceRecognizer :=
  ⟨1 / 2, [("alice", [0, 0])]⟩

/-- C1: on a non-empty snapshot, `match_embedding` computes the Euclidean
distance from the query to every stored vector, picks the first index
attaining the minimum distance (ties broken by first-encountered index),
returns that identity iff the minimum distance is at most the threshold and
"Unknown" otherwise, and in both cases pairs the answer with the true minimum
distance, never a sentinel. -/
theorem matchEmbedding_spec (r : FaceRecognizer) (q : List ℝ) (h : r.known ≠ []) :
    argminList (r.distances q) < r.known.length ∧
    (∀ j, j < r.known.length →
      (r.distances q).getD (argminList (r.distances q)) 0 ≤
        edist (r.known.getD j ("Unknown", [])).2 q) ∧
    (∀ j, j < argminList (r.distances q) →
      (r.distances q).getD (argminList (r.distances q)) 0 <
        edist (r.known.getD j ("Unknown", [])).2 q) ∧
    (r.matchEmbedding q).2 = (r.distances q).getD (argminList (r.distances q)) 0 ∧
    ((r.distances q).getD (argminList (r.distances q)) 0 ≤ r.threshold →
      (r.matchEmbedding q).1 = (r.known.getD (argminList (r.distances q)) ("Unknown", [])).1) ∧
    (r.threshold < (r.distances q).getD (argminList (r.distances q)) 0 →
      (r.matchEmbedding q).1 = "Unknown") := by
  have hne : r.distances q ≠ [] := by
    intro hd
    apply h
    have := distances_length r q
    rw [hd] at this
    exact List.length_eq_zero.mp this.symm
  have hlen0 : ¬ r.known.length = 0 := by
    intro h0
    exact h (List.length_eq_zero.mp h0)
  have hlt : argminList (r.distances q) < r.known.length := by
    rw [← distances_length r q]
    exact argminList_lt_length hne
  refine ⟨hlt, ?_, ?_, ?_, ?_, ?_⟩
  · intro j hj
    have hm := argminList_min (r.distances q) j (by rw [distances_length]; exact hj)
    rwa [distances_getD r q j hj] at hm
  · intro j hj
    have hm := argminList_first (r.distances q) j hj
    rwa [distances_getD r q j (lt_trans hj hlt)] at hm
  · simp only [FaceRecognizer.matchEmbedding, if_neg hlen0]
    by_cases hd : (r.distances q).getD (argminList (r.distances q)) 0 ≤ r.threshold
    · rw [if_pos hd]
    · rw [if_neg hd]
  · intro hd
    simp only [FaceRecognizer.matchEmbedding, if_neg hlen0, if_pos hd]
  · intro hd
    simp only [FaceRecognizer.matchEmbedding, if_neg hlen0, if_neg (not_le.mpr hd)]

theorem matchEmbedding_spec_witness :
    argminList (sampleRecognizer.distances [0, 0]) < sampleRecognizer.known.length ∧
    (∀ j, j < sampleRecognizer.known.length →
      (sampleRecognizer.distances [0, 0]).getD (argminList (sampleRecognizer.distances [0, 0])) 0 ≤
        edist (sampleRecognizer.known.getD j ("Unknown", [])).2 [0, 0]) ∧
    (∀ j, j < argminList (sampleRecognizer.distances [0, 0]) →
      (sampleRecognizer.distances [0, 0]).getD (argminList (sampleRecognizer.distances [0, 0])) 0 <
        edist (sampleRecognizer.known.getD j ("Unknown", [])).2 [0, 0]) ∧
    (sampleRecognizer.matchEmbedding [0, 0]).2 =
      (sampleRecognizer.distances [0, 0]).getD (argminList (sampleRecognizer.distances [0, 0])) 0 ∧
    ((sampleRecognizer.distances [0, 0]).getD (argminList (sampleRecognizer.distances [0, 0])) 0 ≤
        sampleRecognizer.threshold →
      (sampleRecognizer.matchEmbedding [0, 0]).1 =
        (sampleRecognizer.known.getD (argminList (sampleRecognizer.distances [0, 0]))
          ("Unknown", [])).1) ∧
    (sampleRecognizer.threshold <
        (sampleRecognizer.distances [0, 0]).getD (argminList (sampleRecognizer.distances [0, 0])) 0 →
      (sampleRecognizer.matchEmbedding [0, 0]).1 = "Unknown") :=
  matchEmbedding_spec sampleRecognizer [0, 0] (by simp [sampleRecognizer])

/-- C4: with zero identities in the snapshot, `match_embedding` returns
"Unknown" with the defined sentinel distance 1.0, for every query vector. -/
theorem matchEmbedding_empty (r : FaceRecognizer) (q : List ℝ) (h : r.known = []) :
    r.matchEmbedding q = ("Unknown", 1) := by
  simp [FaceRecognizer.matchEmbedding, h]

theorem matchEmbedding_empty_witness :
    FaceRecognizer.matchEmbedding ⟨37 / 10, []⟩ [5, 3] = ("Unknown", 1) :=
  matchEmbedding_empty ⟨37 / 10, []⟩ [5, 3] rfl

/- ===== Embedding registry over the DynamoDB faces table:
   src/embeddings/manager.py.
   A table is an association list (face_id, embedding) in scan order; DynamoDB
   `put_item` replaces the item carrying the same key or inserts a new one. -/

/-- DynamoDB `put_item` on the faces table: replace the entry with key `k`
in place, or append a new entry. -/
def putKV (t : List (String × List ℝ)) (k : String) (v : List ℝ) :
    List (String × List ℝ) :=
  match t with
  | [] => [(k, v)]
  | p :: rest => if p.1 = k then (k, v) :: rest else p :: putKV rest k v

/-- Key lookup in a table. -/
def lookupKV (t : List (String × List ℝ)) (k : String) : Option (List ℝ) :=
  match t with
  | [] => none
  | p :: rest => if p.1 = k then some p.2 else lookupKV rest k

/-- `EmbeddingManager.save`: batch-put every (face_id, embedding) pair of the
mapping into the faces table (the stored `updated_at` attribute and the
float-to-Decimal transport, which is exact for Python float repr, are
elided). -/
def saveTable (t : List (String × List ℝ)) (m : List (String × List ℝ)) :
    List (String × List ℝ) :=
  m.foldl (fun acc p => putKV acc p.1 p.2) t

/-- `EmbeddingManager.load`: scan the faces table and build the embeddings
dict in scan order, skipping items whose face_id or embedding is falsy
(empty). -/
def loadTable (t : List (String × List ℝ)) : List (String × List ℝ) :=
  t.foldl (fun acc it => if it.1 = "" ∨ it.2.isEmpty then acc else putKV acc it.1 it.2) []

/-- `EmbeddingManager.upsert_embedding`: a single unconditional `put_item`. -/
def upsertEmbedding (t : List (String × List ℝ)) (faceId : String) (v : List ℝ) :
    List (String × List ℝ) :=
  putKV t faceId v

/-- `EmbeddingManager.build_database`'s derivation loop: each bulk-source entry
is a user id with the result of the external download-and-encode collaborators
(`None` when the image is missing or no face encodes, in which case the entry
is skipped); `embeddings[user_id] = vector` is dict assignment. -/
def deriveEmbeddings (source : List (String × Option (List ℝ))) :
    List (String × List ℝ) :=
  source.foldl (fun acc entry =>
    match entry.2 with
    | none => acc
    | some v => putKV acc entry.1 v) []

/-- `EmbeddingManager.build_database`: derive the mapping from the bulk source,
raise `RuntimeError` when it is empty, otherwise `save` it into the faces
table and return the mapping. -/
def buildDatabase (source : List (String × Option (List ℝ)))
    (t : List (String × List ℝ)) :
    Except String (List (String × List ℝ) × List (String × List ℝ)) :=
  let e := deriveEmbeddings source
  if e.isEmpty then Except.error "No embeddings generated from S3 source."
  else Except.ok (saveTable t e, e)

theorem lookupKV_putKV_self (t : List (String × List ℝ)) (k : String) (v : List ℝ) :
    lookupKV (putKV t k v) k = some v := by
  induction t with
  | nil => simp [putKV, lookupKV]
  | cons p rest ih =>
    by_cases hp : p.1 = k
    · simp [putKV, hp, lookupKV]
    · simp [putKV, hp, lookupKV, ih]

theorem lookupKV_putKV_other (t : List (String × List ℝ)) (k : String) (v : List ℝ)
    (k2 : String) (h : k2 ≠ k) :
    lookupKV (putKV t k v) k2 = lookupKV t k2 := by
  have hkk2 : ¬ k = k2 := fun e => h e.symm
  induction t with
  | nil => simp [putKV, lookupKV, hkk2]
  | cons p rest ih =>
    by_cases hp : p.1 = k
    · have hp2 : ¬ p.1 = k2 := by rw [hp]; exact hkk2
      rw [putKV, if_pos hp, lookupKV, if_neg hkk2, lookupKV, if_neg hp2]
    · rw [putKV, if_neg hp]
      by_cases hp2 : p.1 = k2
      · rw [lookupKV, if_pos hp2, lookupKV, if_pos hp2]
      · rw [lookupKV, if_neg hp2, lookupKV, if_neg hp2, ih]

theorem lookupKV_eq_none (t : List (String × List ℝ)) (k : String) :
    lookupKV t k = none ↔ k ∉ t.map Prod.fst := by
  induction t with
  | nil => simp [lookupKV]
  | cons p rest ih =>
    by_cases hp : p.1 = k
    · simp [lookupKV, hp]
    · have hk : ¬ k = p.1 := fun e => hp e.symm
      simp [lookupKV, hp, ih, hk]

theorem putKV_of_not_mem (t : List (String × List ℝ)) (k : String) (v : List ℝ)
    (h : k ∉ t.map Prod.fst) :
    putKV t k v = t ++ [(k, v)] := by
  induction t with
  | nil => simp [putKV]
  | cons p rest ih =>
    simp only [List.map_cons, List.mem_cons, not_or] at h
    have hp : ¬ p.1 = k := fun e => h.1 e.symm
    simp [putKV, hp, ih h.2]

theorem putKV_keys_of_mem (t : List (String × List ℝ)) (k : String) (v : List ℝ)
    (h : k ∈ t.map Prod.fst) :
    (putKV t k v).map Prod.fst = t.map Prod.fst := by
  induction t with
  | nil => simp at h
  | cons p rest ih =>
    by_cases hp : p.1 = k
    · simp [putKV, hp]
    · simp only [List.map_cons, List.mem_cons] at h
      rcases h with h | h
      · exact absurd h.symm hp
      · simp [putKV, hp, ih h]

theorem putKV_keys_nodup (t : List (String × List ℝ)) (k : String) (v : List ℝ)
    (h : (t.map Prod.fst).Nodup) :
    ((putKV t k v).map Prod.fst).Nodup := by
  by_cases hm : k ∈ t.map Prod.fst
  · rw [putKV_keys_of_mem t k v hm]; exact h
  · rw [putKV_of_not_mem t k v hm]
    simp [List.nodup_append, h, hm]

theorem saveTable_lookup_of_none (m : List (String × List ℝ)) :
    ∀ t k, lookupKV m k = none → lookupKV (saveTable t m) k = lookupKV t k := by
  induction m with
  | nil => intro t k _; rfl
  | cons p ps ih =>
    intro t k h
    by_cases hp : p.1 = k
    · simp [lookupKV, hp] at h
    · simp only [lookupKV, if_neg hp] at h
      show lookupKV (saveTable (putKV t p.1 p.2) ps) k = lookupKV t k
      rw [ih (putKV t p.1 p.2) k h, lookupKV_putKV_other t p.1 p.2 k (fun e => hp e.symm)]

theorem saveTable_lookup_of_some (m : List (String × List ℝ)) :
    ∀ t k v, (m.map Prod.fst).Nodup → lookupKV m k = some v →
      lookupKV (saveTable t m) k = some v := by
  induction m with
  | nil => intro t k v _ h; simp [lookupKV] at h
  | cons p ps ih =>
    intro t k v hnd h
    simp only [List.map_cons, List.nodup_cons] at hnd
    by_cases hp : p.1 = k
    · simp only [lookupKV, if_pos hp] at h
      have hnone : lookupKV ps k = none := by
        rw [lookupKV_eq_none]
        rw [hp] at hnd
        exact hnd.1
      show lookupKV (saveTable (putKV t p.1 p.2) ps) k = some v
      rw [saveTable_lookup_of_none ps (putKV t p.1 p.2) k hnone, hp,
        lookupKV_putKV_self t k p.2, h]
    · simp only [lookupKV, if_neg hp] at h
      exact ih (putKV t p.1 p.2) k v hnd.2 h

theorem saveTable_append (m : List (String × List ℝ)) :
    ∀ t, (m.map Prod.fst).Nodup →
      (∀ k ∈ m.map Prod.fst, k ∉ t.map Prod.fst) →
      saveTable t m = t ++ m := by
  induction m with
  | nil => intro t _ _; simp [saveTable]
  | cons p ps ih =>
    intro t hnd hdisj
    simp only [List.map_cons, List.nodup_cons] at hnd
    have hpt : p.1 ∉ t.map Prod.fst := hdisj p.1 (by simp)
    show saveTable (putKV t p.1 p.2) ps = t ++ p :: ps
    rw [putKV_of_not_mem t p.1 p.2 hpt]
    have hps : ∀ k ∈ ps.map Prod.fst, k ∉ (t ++ [(p.1, p.2)]).map Prod.fst := by
      intro k hk
      simp only [List.map_append, List.mem_append, List.map_cons, List.map_nil,
        List.mem_singleton, not_or]
      exact ⟨hdisj k (by simp [hk]), fun e => hnd.1 (e ▸ hk)⟩
    rw [ih (t ++ [(p.1, p.2)]) hnd.2 hps, List.append_assoc]
    rfl

theorem loadTable_eq_fold (m : List (String × List ℝ)) :
    ∀ acc, (∀ p ∈ m, p.1 ≠ "" ∧ p.2.isEmpty = false) →
      m.foldl (fun acc2 it => if it.1 = "" ∨ it.2.isEmpty then acc2 else putKV acc2 it.1 it.2)
          acc =
        m.foldl (fun acc2 p => putKV acc2 p.1 p.2) acc := by
  induction m with
  | nil => intro acc _; rfl
  | cons p ps ih =>
    intro acc hgood
    have hp := hgood p (by simp)
    have hcond : ¬ (p.1 = "" ∨ p.2.isEmpty = true) := by
      simp [hp.1, hp.2]
    simp only [List.foldl_cons, if_neg hcond]
    exact ih (putKV acc p.1 p.2) (fun q hq => hgood q (by simp [hq]))

theorem loadTable_of_good (m : List (String × List ℝ))
    (hgood : ∀ p ∈ m, p.1 ≠ "" ∧ p.2.isEmpty = false) :
    loadTable m = saveTable [] m :=
  loadTable_eq_fold m [] hgood

theorem deriveFold_keys_nodup (source : List (String × Option (List ℝ))) :
    ∀ acc : List (String × List ℝ), (acc.map Prod.fst).Nodup →
      ((source.foldl (fun acc2 entry =>
        match entry.2 with
        | none => acc2
        | some v => putKV acc2 entry.1 v) acc).map Prod.fst).Nodup := by
  induction source with
  | nil => intro acc h; exact h
  | cons e es ih =>
    intro acc h
    simp only [List.foldl_cons]
    cases he : e.2 with
    | none => simpa [he] using ih acc h
    | some v => simpa [he] using ih (putKV acc e.1 v) (putKV_keys_nodup acc e.1 v h)

theorem deriveEmbeddings_keys_nodup (source : List (String × Option (List ℝ))) :
    ((deriveEmbeddings source).map Prod.fst).Nodup :=
  deriveFold_keys_nodup source [] (by simp)

/-- C7 amended: `upsert_embedding` performs no dimension check at all: for
every table, identity and vector (of any dimension) it unconditionally inserts
or replaces the single entry for that identity, leaving every other identity's
entry unchanged, and never fails. -/
theorem upsertEmbedding_spec (t : List (String × List ℝ)) (k : String) (v : List ℝ) :
    lookupKV (upsertEmbedding t k v) k = some v ∧
    ∀ k2, k2 ≠ k → lookupKV (upsertEmbedding t k v) k2 = lookupKV t k2 :=
  ⟨lookupKV_putKV_self t k v, fun k2 h => lookupKV_putKV_other t k v k2 h⟩

/-- C7 counterexample: upserting the 1-dimensional vector [1] into a registry
whose sole entry is 2-dimensional succeeds and changes the registry, instead
of failing with DimensionMismatch and leaving it unchanged. -/
theorem upsertEmbedding_no_dimension_check :
    upsertEmbedding [("alice", [(0 : ℝ), 0])] "bob" [1] =
      [("alice", [(0 : ℝ), 0]), ("bob", [1])] ∧
    upsertEmbedding [("alice", [(0 : ℝ), 0])] "bob" [1] ≠ [("alice", [(0 : ℝ), 0])] :=
  ⟨rfl, fun heq => absurd (congrArg List.length heq) (by decide)⟩

/-- C8 amended: `build_database` fails with the EmptyResult error (persisting
nothing) whenever zero identities could be derived from the bulk source;
otherwise it writes every derived entry over the faces table by per-identity
put, which keeps — rather than replaces — prior entries for identities absent
from the source. -/
theorem buildDatabase_spec (source : List (String × Option (List ℝ)))
    (t : List (String × List ℝ)) :
    (deriveEmbeddings source = [] →
      buildDatabase source t = Except.error "No embeddings generated from S3 source.") ∧
    (deriveEmbeddings source ≠ [] →
      buildDatabase source t =
        Except.ok (saveTable t (deriveEmbeddings source), deriveEmbeddings source) ∧
      (∀ k, lookupKV (deriveEmbeddings source) k = none →
        lookupKV (saveTable t (deriveEmbeddings source)) k = lookupKV t k) ∧
      (∀ k v, lookupKV (deriveEmbeddings source) k = some v →
        lookupKV (saveTable t (deriveEmbeddings source)) k = some v)) := by
  constructor
  · intro h
    simp [buildDatabase, h]
  · intro h
    refine ⟨?_, ?_, ?_⟩
    · have : (deriveEmbeddings source).isEmpty = false := by
        cases hd : deriveEmbeddings source with
        | nil => exact absurd hd h
        | cons a l => rfl
      simp [buildDatabase, this]
    · intro k hk
      exact saveTable_lookup_of_none (deriveEmbeddings source) t k hk
    · intro k v hk
      exact saveTable_lookup_of_some (deriveEmbeddings source) t k v
        (deriveEmbeddings_keys_nodup source) hk

/-- C8 counterexample: rebuilding from a source that derives only identity
"new" over a table holding identity "old" keeps the stale "old" entry — the
prior registry content is merged over, not replaced. -/
theorem buildDatabase_keeps_stale_entries :
    buildDatabase [("new", some [(2 : ℝ)])] [("old", [(1 : ℝ)])] =
      Except.ok ([("old", [(1 : ℝ)]), ("new", [2])], [("new", [(2 : ℝ)])]) ∧
    lookupKV [("old", [(1 : ℝ)]), ("new", [2])] "old" = some [1] :=
  ⟨rfl, rfl⟩

/-- C10 amended: for a mapping with pairwise-distinct identities in which no
identity is the empty string and no vector is empty, saving into an empty
faces table and loading back yields the identical identity-to-vector mapping
(components transported exactly); load skips any item with an empty identity
or empty vector. -/
theorem save_load_roundtrip (m : List (String × List ℝ))
    (hgood : ∀ p ∈ m, p.1 ≠ "" ∧ p.2.isEmpty = false)
    (hnd : (m.map Prod.fst).Nodup) :
    loadTable (saveTable [] m) = m := by
  have h1 : saveTable [] m = m := saveTable_append m [] hnd (by simp)
  rw [h1, loadTable_of_good m hgood, h1]

theorem save_load_roundtrip_witness :
    loadTable (saveTable [] [("alice", [(1 : ℝ), 2]), ("bob", [3])]) =
      [("alice", [(1 : ℝ), 2]), ("bob", [3])] :=
  save_load_roundtrip [("alice", [(1 : ℝ), 2]), ("bob", [3])]
    (by decide) (by decide)

/-- C10 counterexample: saving the mapping with the single entry
("alice", []) and loading back yields the empty mapping, not an identical
one — load drops the item whose embedding list is empty. -/
theorem save_load_drops_empty :
    loadTable (saveTable [] [("alice", ([] : List ℝ))]) = [] ∧
    [("alice", ([] : List ℝ))] ≠ ([] : List (String × List ℝ)) :=
  ⟨rfl, by simp⟩

/- ===== Session orchestrator: src/core/system.py ===== -/

/-- `ClassAttendanceSystem` state relevant to recognition: the faces table
backing the registry, the distance threshold, and the lazily built matcher
snapshot (`self.recognizer`, initially `None`). -/
structure AttendanceSystem where
  facesTable : List (String × List ℝ)
  threshold : ℝ
  recognizer : Option FaceRecognizer

/-- `ClassAttendanceSystem._ensure_recognizer`: on first use, load the
embeddings mapping from the faces table and construct the matcher from it;
afterwards reuse the stored snapshot. -/
noncomputable def ensureRecognizer (s : AttendanceSystem) :
    FaceRecognizer × AttendanceSystem :=
  match s.recognizer with
  | some r => (r, s)
  | none =>
    let r : FaceRecognizer := ⟨s.threshold, loadTable s.facesTable⟩
    (r, { s with recognizer := some r })

/-- `ClassAttendanceSystem.recognize` at the vector level: ensure the matcher
snapshot exists, then delegate the query vector to `match_embedding`. -/
noncomputable def systemRecognize (s : AttendanceSystem) (q : List ℝ) :
    (String × ℝ) × AttendanceSystem :=
  ((ensureRecognizer s).1.matchEmbedding q, (ensureRecognizer s).2)

/-- C6 amended: `recognize` never fails with a distinct EmbeddingsUnavailable
error. When the registry has never been built (the faces table holds no items)
and no matcher snapshot exists, `load` returns the empty mapping, a matcher
over an empty snapshot is constructed, and recognize succeeds with the valid
outcome ("Unknown", 1.0) — indistinguishable from the "Unknown" recognition
outcome. -/
theorem systemRecognize_neverBuilt (s : AttendanceSystem) (q : List ℝ)
    (htbl : s.facesTable = []) (hrec : s.recognizer = none) :
    (systemRecognize s q).1 = ("Unknown", 1) := by
  simp [systemRecognize, ensureRecognizer, hrec, htbl, loadTable,
    FaceRecognizer.matchEmbedding]

theorem systemRecognize_neverBuilt_witness :
    (systemRecognize ⟨[], 1 / 2, none⟩ [3, 4]).1 = ("Unknown", 1) :=
  systemRecognize_neverBuilt ⟨[], 1 / 2, none⟩ [3, 4] rfl rfl

/-- C6 counterexample: on a system whose registry was never built (empty faces
table, no snapshot), recognize does not fail: it returns exactly the valid
empty-snapshot match outcome ("Unknown", 1.0), the same result an "Unknown"
recognition produces, rather than a distinct EmbeddingsUnavailable failure. -/
theorem systemRecognize_neverBuilt_counterexample :
    (systemRecognize ⟨[], 1 / 2, none⟩ [5, 12]).1 = ("Unknown", 1) ∧
    FaceRecognizer.matchEmbedding ⟨1 / 2, []⟩ [5, 12] = ("Unknown", 1) := by
  constructor
  · simp [systemRecognize, ensureRecognizer, loadTable, FaceRecognizer.matchEmbedding]
  · simp [FaceRecognizer.matchEmbedding]

/- ===== Calendar-day attendance ledger: src/attendance/logger.py =====
   The Attendance table is keyed (session_id, face_id); `log` performs one
   conditional put_item with ConditionExpression attribute_not_exists(face_id),
   which succeeds iff no item with that primary key exists — per the module
   docstring, at most one entry per user per day. -/

/-- A row of the Attendance table: session bucket (partition key), identity
(sort key), timestamp in seconds, source tag. -/
structure ARecord where
  session : ℤ
  face : String
  time : ℚ
  source : String
  deriving DecidableEq

/-- The UTC calendar-day bucket `timestamp.strftime("%Y%m%d")` of a timestamp
counted in seconds: its day number. -/
def dayKey (t : ℚ) : ℤ :=
  ⌊t / 86400⌋

/-- `AttendanceLogger.log`: one atomic conditional put keyed by
(session_id = current UTC day, face_id): persists and returns True iff no
record for that identity exists in that session, else returns False and
persists nothing. -/
def attLog (tbl : List ARecord) (u src : String) (now : ℚ) : Bool × List ARecord :=
  if tbl.any (fun r => r.session == dayKey now && r.face == u) then (false, tbl)
  else (true, tbl ++ [⟨dayKey now, u, now, src⟩])

/-- The ledger invariant: at most one record per (session key, identity). -/
def atMostOnePerKey (tbl : List ARecord) : Prop :=
  tbl.Pairwise (fun r1 r2 => ¬(r1.session = r2.session ∧ r1.face = r2.face))

theorem attLog_of_fresh {tbl : List ARecord} {u src : String} {now : ℚ}
    (h : ∀ r ∈ tbl, ¬(r.session = dayKey now ∧ r.face = u)) :
    attLog tbl u src now = (true, tbl ++ [⟨dayKey now, u, now, src⟩]) := by
  have hany : (tbl.any fun r => r.session == dayKey now && r.face == u) = false := by
    simp only [List.any_eq_false, Bool.and_eq_true, beq_iff_eq, not_and]
    intro r hr h1 h2
    exact h r hr ⟨h1, h2⟩
  simp [attLog, hany]

theorem attLog_of_dup {tbl : List ARecord} {u src : String} {now : ℚ}
    (h : ∃ r ∈ tbl, r.session = dayKey now ∧ r.face = u) :
    attLog tbl u src now = (false, tbl) := by
  have hany : (tbl.any fun r => r.session == dayKey now && r.face == u) = true := by
    rw [List.any_eq_true]
    obtain ⟨r, hr, h1, h2⟩ := h
    exact ⟨r, hr, by simp [h1, h2]⟩
  simp [attLog, hany]

theorem attLog_preserves_atMostOne (tbl : List ARecord) (u src : String) (now : ℚ)
    (h : atMostOnePerKey tbl) : atMostOnePerKey (attLog tbl u src now).2 := by
  by_cases hany : (tbl.any fun r => r.session == dayKey now && r.face == u) = true
  · simpa [attLog, hany] using h
  · have hfresh : ∀ r ∈ tbl, ¬(r.session = dayKey now ∧ r.face = u) := by
      rw [Bool.not_eq_true, List.any_eq_false] at hany
      intro r hr hc
      exact hany r hr (by simp [hc.1, hc.2])
    rw [attLog_of_fresh hfresh]
    rw [atMostOnePerKey, List.pairwise_append]
    refine ⟨h, List.pairwise_singleton _ _, ?_⟩
    intro a ha b hb
    simp only [List.mem_singleton] at hb
    subst hb
    exact hfresh a ha

/-- C2: the calendar-day ledger keeps at most one record per (identity,
session key): logging preserves the at-most-one invariant; a first log in a
fresh session returns true; a second log for the same identity within the
same session key returns false and persists nothing; and after the session
key rolls over a third log returns true again. -/
theorem attLog_dedup_scenario (tbl : List ARecord) (u src1 src2 src3 : String)
    (t1 t2 t3 : ℚ)
    (hinv : atMostOnePerKey tbl)
    (h1 : ∀ r ∈ tbl, ¬(r.session = dayKey t1 ∧ r.face = u))
    (h2 : dayKey t2 = dayKey t1)
    (h3 : dayKey t3 ≠ dayKey t1)
    (h4 : ∀ r ∈ tbl, ¬(r.session = dayKey t3 ∧ r.face = u)) :
    (attLog tbl u src1 t1).1 = true ∧
    atMostOnePerKey (attLog tbl u src1 t1).2 ∧
    (attLog (attLog tbl u src1 t1).2 u src2 t2).1 = false ∧
    (attLog (attLog tbl u src1 t1).2 u src2 t2).2 = (attLog tbl u src1 t1).2 ∧
    (attLog (attLog tbl u src1 t1).2 u src3 t3).1 = true := by
  have hs1 : attLog tbl u src1 t1 = (true, tbl ++ [⟨dayKey t1, u, t1, src1⟩]) :=
    attLog_of_fresh h1
  have hdup2 : attLog (tbl ++ [⟨dayKey t1, u, t1, src1⟩]) u src2 t2 =
      (false, tbl ++ [⟨dayKey t1, u, t1, src1⟩]) :=
    attLog_of_dup ⟨⟨dayKey t1, u, t1, src1⟩, by simp, by simp [h2], rfl⟩
  have h5 : ∀ r ∈ tbl ++ [⟨dayKey t1, u, t1, src1⟩],
      ¬(r.session = dayKey t3 ∧ r.face = u) := by
    intro r hr
    rcases List.mem_append.mp hr with hr | hr
    · exact h4 r hr
    · simp only [List.mem_singleton] at hr
      subst hr
      intro hc
      exact h3 hc.1.symm
  have hs3 : attLog (tbl ++ [⟨dayKey t1, u, t1, src1⟩]) u src3 t3 =
      (true, (tbl ++ [⟨dayKey t1, u, t1, src1⟩]) ++ [⟨dayKey t3, u, t3, src3⟩]) :=
    attLog_of_fresh h5
  refine ⟨by simp [hs1], attLog_preserves_atMostOne tbl u src1 t1 hinv, ?_, ?_, ?_⟩
  · simp [hs1, hdup2]
  · simp [hs1, hdup2]
  · simp [hs1, hs3]

theorem attLog_dedup_scenario_witness :
    (attLog [] "bob" "camera" 0).1 = true ∧
    atMostOnePerKey (attLog [] "bob" "camera" 0).2 ∧
    (attLog (attLog [] "bob" "camera" 0).2 "bob" "camera" 10).1 = false ∧
    (attLog (attLog [] "bob" "camera" 0).2 "bob" "camera" 10).2 =
      (attLog [] "bob" "camera" 0).2 ∧
    (attLog (attLog [] "bob" "camera" 0).2 "bob" "camera" 86405).1 = true :=
  attLog_dedup_scenario [] "bob" "camera" "camera" "camera" 0 10 86405
    List.Pairwise.nil (by simp)
    (by
      have a : dayKey 10 = 0 := by rw [dayKey, Int.floor_eq_iff] <;> norm_num
      have b : dayKey 0 = 0 := by rw [dayKey, Int.floor_eq_iff] <;> norm_num
      rw [a, b])
    (by
      have a : dayKey 86405 = 1 := by rw [dayKey, Int.floor_eq_iff] <;> norm_num
      have b : dayKey 0 = 0 := by rw [dayKey, Int.floor_eq_iff] <;> norm_num
      rw [a, b]
      decide)
    (by simp)

/-- Sequential execution of one conditional-put `log` call per listed
timestamp, all for the same identity: since each call is a single atomic
store operation, every interleaving of N concurrent callers is one such
serialization. -/
def runCondPuts (u src : String) : List ℚ → List ARecord → List Bool × List ARecord
  | [], tbl => ([], tbl)
  | t :: ts, tbl =>
    ((attLog tbl u src t).1 :: (runCondPuts u src ts (attLog tbl u src t).2).1,
      (runCondPuts u src ts (attLog tbl u src t).2).2)

theorem runCondPuts_all_false (u src : String) (d : ℤ) :
    ∀ (ts : List ℚ) (tbl : List ARecord), (∀ t ∈ ts, dayKey t = d) →
      (∃ r ∈ tbl, r.session = d ∧ r.face = u) →
      runCondPuts u src ts tbl = (List.replicate ts.length false, tbl) := by
  intro ts
  induction ts with
  | nil => intro tbl _ _; rfl
  | cons t ts ih =>
    intro tbl hd hex
    have hdup : attLog tbl u src t = (false, tbl) := by
      apply attLog_of_dup
      obtain ⟨r, hr, hr1, hr2⟩ := hex
      exact ⟨r, hr, by rw [hd t (by simp)]; exact hr1, hr2⟩
    rw [runCondPuts, hdup]
    rw [ih tbl (fun t2 ht2 => hd t2 (by simp [ht2])) hex]
    simp [List.replicate_succ]

/-- C3 amended: the calendar-day ledger's `log` is a single atomic conditional
write, so every serialization of N concurrent calls for the same identity
within one session key yields exactly one true and N−1 false results. The
cooldown ledger `DynamoDBLogger.log`, by contrast, is a separate read
(`is_duplicate`) followed by an unconditional write, and an interleaving of
two concurrent calls yields two true results (see the counterexample). -/
theorem attLog_exactly_one_true (u src : String) (d : ℤ) (times : List ℚ)
    (tbl : List ARecord)
    (hne : times ≠ [])
    (hd : ∀ t ∈ times, dayKey t = d)
    (hfresh : ∀ r ∈ tbl, ¬(r.session = d ∧ r.face = u)) :
    (runCondPuts u src times tbl).1.count true = 1 ∧
    (runCondPuts u src times tbl).1.count false = times.length - 1 := by
  cases times with
  | nil => exact absurd rfl hne
  | cons t ts =>
    have hd1 : dayKey t = d := hd t (by simp)
    have hfresh1 : ∀ r ∈ tbl, ¬(r.session = dayKey t ∧ r.face = u) := by
      intro r hr hc
      exact hfresh r hr ⟨by rw [← hd1]; exact hc.1, hc.2⟩
    have hs1 : attLog tbl u src t = (true, tbl ++ [⟨dayKey t, u, t, src⟩]) :=
      attLog_of_fresh hfresh1
    have hrest := runCondPuts_all_false u src d ts (tbl ++ [⟨dayKey t, u, t, src⟩])
      (fun t2 ht2 => hd t2 (by simp [ht2]))
      ⟨⟨dayKey t, u, t, src⟩, by simp, by simpa using hd1, rfl⟩
    rw [runCondPuts, hs1]
    simp only []
    rw [hrest]
    simp [List.count_cons, List.count_replicate]

theorem attLog_exactly_one_true_witness :
    (runCondPuts "bob" "camera" [0, 10, 20] []).1.count true = 1 ∧
    (runCondPuts "bob" "camera" [0, 10, 20] []).1.count false =
      ([0, 10, 20] : List ℚ).length - 1 :=
  attLog_exactly_one_true "bob" "camera" 0 [0, 10, 20] []
    (by simp)
    (by
      have a : dayKey 0 = 0 := by rw [dayKey, Int.floor_eq_iff] <;> norm_num
      have b : dayKey 10 = 0 := by rw [dayKey, Int.floor_eq_iff] <;> norm_num
      have c : dayKey 20 = 0 := by rw [dayKey, Int.floor_eq_iff] <;> norm_num
      intro t ht
      simp only [List.mem_cons, List.not_mem_nil, or_false] at ht
      rcases ht with rfl | rfl | rfl
      · exact a
      · exact b
      · exact c)
    (by simp)

/- ===== Cooldown attendance ledger: src/attendance/dynamodb_logger.py =====
   Table attendance_records is keyed (user_id, timestamp); rows are kept in
   backing-store scan order, which DynamoDB does not guarantee to be
   chronological. -/

/-- A row of the attendance_records table: identity, timestamp in seconds,
source tag. -/
structure DRecord where
  user : String
  time : ℚ
  source : String
  deriving DecidableEq

/-- Ordering of records by timestamp, the sort key of `get_records`
(`rows.sort(key=lambda x: x["timestamp"])`). -/
def recLE (a b : DRecord) : Prop :=
  a.time ≤ b.time

instance : DecidableRel recLE :=
  fun a b => inferInstanceAs (Decidable (a.time ≤ b.time))

instance : IsTotal DRecord recLE :=
  ⟨fun a b => le_total a.time b.time⟩

instance : IsTrans DRecord recLE :=
  ⟨fun _ _ _ h1 h2 => le_trans h1 h2⟩

/-- The `user_id` part of `get_records`: a partition-key query when the filter
is present, trivially true on a full scan. -/
def userOk (fu : Option String) (r : DRecord) : Bool :=
  match fu with
  | some u => r.user == u
  | none => true

/-- The date-range part of `get_records`: keep rows not before `start_date`
and not after `end_date` (both bounds inclusive). -/
def dateOk (fs fe : Option ℚ) (r : DRecord) : Bool :=
  (match fs with
   | some s => decide (s ≤ r.time)
   | none => true) &&
  (match fe with
   | some e => decide (r.time ≤ e)
   | none => true)

/-- The conjunction of all `get_records` filters. -/
def ddbMatches (fu : Option String) (fs fe : Option ℚ) (r : DRecord) : Bool :=
  dateOk fs fe r && userOk fu r

/-- `DynamoDBLogger.get_records`: query by user when that filter is present
(else scan the table), drop rows outside the inclusive date range, and sort
ascending by timestamp (Python's stable `list.sort`, here stable insertion
sort). -/
def getRecordsDdb (rows : List DRecord) (fu : Option String) (fs fe : Option ℚ) :
    List DRecord :=
  let items : List DRecord := match fu with
    | some u => rows.filter (fun r => r.user == u)
    | none => rows
  List.insertionSort recLE (items.filter (dateOk fs fe))

/-- `DynamoDBLogger.get_last_event`: last element of the user's sorted
records, `None` when there are none. -/
def getLastEvent (rows : List DRecord) (u : String) : Option DRecord :=
  (getRecordsDdb rows (some u) none none).getLast?

/-- `DynamoDBLogger.is_duplicate` with its default 5-minute interval: true iff
the user's most recent record lies strictly within the trailing
`timedelta(minutes=5)`. -/
def isDuplicate (rows : List DRecord) (u : String) (now : ℚ) : Bool :=
  match getLastEvent rows u with
  | none => false
  | some r => decide (now - r.time < 5 * 60)

/-- `DynamoDBLogger.log`: a read (`is_duplicate`) followed by a separate
unconditional `put_item` — not a conditional write. -/
def ddbLog (rows : List DRecord) (u src : String) (now : ℚ) : Bool × List DRecord :=
  if isDuplicate rows u now then (false, rows)
  else (true, rows ++ [⟨u, now, src⟩])

/-- The read phase of `DynamoDBLogger.log`: the `is_duplicate` lookup. -/
def ddbLogRead (rows : List DRecord) (u : String) (now : ℚ) : Bool :=
  isDuplicate rows u now

/-- The write phase of `DynamoDBLogger.log`: return False having persisted
nothing when the earlier read saw a duplicate, else persist unconditionally
and return True. -/
def ddbLogWrite (rows : List DRecord) (u src : String) (now : ℚ) (dup : Bool) :
    Bool × List DRecord :=
  if dup then (false, rows) else (true, rows ++ [⟨u, now, src⟩])

theorem ddbLog_eq_read_write (rows : List DRecord) (u src : String) (now : ℚ) :
    ddbLog rows u src now = ddbLogWrite rows u src now (ddbLogRead rows u now) := rfl

/-- `AttendanceLogger.get_records`'s `_match` closure on a row of the
calendar-day table: identity filter and inclusive date range. -/
def attMatches (fu : Option String) (fs fe : Option ℚ) (r : ARecord) : Bool :=
  (match fu with
   | some u => r.face == u
   | none => true) &&
  (match fs with
   | some s => decide (s ≤ r.time)
   | none => true) &&
  (match fe with
   | some e => decide (r.time ≤ e)
   | none => true)

/-- `AttendanceLogger.get_records`: scan the table and keep the matching rows,
in scan order — no sorting. -/
def attGetRecords (tbl : List ARecord) (fu : Option String) (fs fe : Option ℚ) :
    List ARecord :=
  tbl.filter (attMatches fu fs fe)

theorem getRecordsDdb_eq (rows : List DRecord) (fu : Option String) (fs fe : Option ℚ) :
    getRecordsDdb rows fu fs fe =
      List.insertionSort recLE (rows.filter (ddbMatches fu fs fe)) := by
  cases fu with
  | none =>
    show List.insertionSort recLE (rows.filter (dateOk fs fe)) = _
    congr 1
    apply List.filter_congr
    intro a _
    simp [ddbMatches, userOk]
  | some u =>
    show List.insertionSort recLE
        ((rows.filter (fun r => r.user == u)).filter (dateOk fs fe)) = _
    rw [List.filter_filter]
    rfl

theorem sorted_getLast_max {l : List DRecord} (hs : List.Sorted recLE l)
    {y : DRecord} (hy : l.getLast? = some y) :
    ∀ x ∈ l, x.time ≤ y.time := by
  obtain ⟨ys, rfl⟩ := List.getLast?_eq_some_iff.mp hy
  intro x hx
  rcases List.mem_append.mp hx with hx | hx
  · exact (List.pairwise_append.mp hs).2.2 x hx y (by simp)
  · simp only [List.mem_singleton] at hx
    subst hx
    exact le_refl _

theorem getLastEvent_none_iff (rows : List DRecord) (u : String) :
    getLastEvent rows u = none ↔ ∀ r ∈ rows, r.user ≠ u := by
  rw [getLastEvent, List.getLast?_eq_none_iff, getRecordsDdb_eq]
  constructor
  · intro h r hr hu
    have hmem : r ∈ List.insertionSort recLE (rows.filter (ddbMatches (some u) none none)) := by
      rw [List.mem_insertionSort, List.mem_filter]
      exact ⟨hr, by simp [ddbMatches, dateOk, userOk, hu]⟩
    rw [h] at hmem
    exact absurd hmem (List.not_mem_nil r)
  · intro h
    have hnil : rows.filter (ddbMatches (some u) none none) = [] := by
      rw [List.filter_eq_nil_iff]
      intro a ha hp
      apply h a ha
      simpa [ddbMatches, dateOk, userOk] using hp
    rw [hnil]
    rfl

theorem getLastEvent_some (rows : List DRecord) (u : String) {y : DRecord}
    (hy : getLastEvent rows u = some y) :
    y ∈ rows ∧ y.user = u ∧ ∀ r ∈ rows, r.user = u → r.time ≤ y.time := by
  rw [getLastEvent] at hy
  have hs : List.Sorted recLE (getRecordsDdb rows (some u) none none) := by
    rw [getRecordsDdb_eq]
    exact List.sorted_insertionSort recLE _
  have hmax := sorted_getLast_max hs hy
  have hymem : y ∈ getRecordsDdb rows (some u) none none := by
    obtain ⟨ys, hys⟩ := List.getLast?_eq_some_iff.mp hy
    rw [hys]
    simp
  rw [getRecordsDdb_eq, List.mem_insertionSort, List.mem_filter] at hymem
  refine ⟨hymem.1, ?_, ?_⟩
  · have := hymem.2
    simpa [ddbMatches, dateOk, userOk] using this
  · intro r hr hu
    apply hmax
    rw [getRecordsDdb_eq, List.mem_insertionSort, List.mem_filter]
    exact ⟨hr, by simp [ddbMatches, dateOk, userOk, hu]⟩

theorem isDuplicate_iff (rows : List DRecord) (u : String) (now : ℚ) :
    isDuplicate rows u now = true ↔
      ∃ r ∈ rows, r.user = u ∧ now - r.time < 5 * 60 := by
  constructor
  · intro h
    cases hle : getLastEvent rows u with
    | none => simp [isDuplicate, hle] at h
    | some y =>
      simp only [isDuplicate, hle, decide_eq_true_eq] at h
      obtain ⟨hmem, hu, _⟩ := getLastEvent_some rows u hle
      exact ⟨y, hmem, hu, h⟩
  · rintro ⟨r, hr, hu, hlt⟩
    cases hle : getLastEvent rows u with
    | none =>
      exact absurd hu ((getLastEvent_none_iff rows u).mp hle r hr)
    | some y =>
      obtain ⟨_, _, hmax⟩ := getLastEvent_some rows u hle
      have hry := hmax r hr hu
      simp only [isDuplicate, hle, decide_eq_true_eq]
      linarith

/-- C5: under the cooldown policy with its default 5-minute window, a log
attempt is suppressed (returns false and persists nothing) iff the identity's
last logged event lies strictly within the trailing 5 minutes — equivalently,
iff some record of that identity lies strictly within it — and otherwise the
event is appended. Concretely for "bob": a log at t=0 is logged, a log at
t=200s is suppressed, and a log at t=301s is logged. -/
theorem ddbLog_cooldown (rows : List DRecord) (u src : String) (now : ℚ) :
    ((ddbLog rows u src now).1 = false ↔
      ∃ r ∈ rows, r.user = u ∧ now - r.time < 5 * 60) ∧
    ((ddbLog rows u src now).1 = false → (ddbLog rows u src now).2 = rows) ∧
    ((ddbLog rows u src now).1 = true →
      (ddbLog rows u src now).2 = rows ++ [⟨u, now, src⟩]) ∧
    ddbLog [] "bob" "camera" 0 = (true, [⟨"bob", 0, "camera"⟩]) ∧
    (ddbLog [⟨"bob", 0, "camera"⟩] "bob" "camera" 200).1 = false ∧
    (ddbLog [⟨"bob", 0, "camera"⟩] "bob" "camera" 301).1 = true := by
  have hb : (ddbLog rows u src now).1 = false ↔ isDuplicate rows u now = true := by
    by_cases hdup : isDuplicate rows u now = true
    · simp [ddbLog, hdup]
    · simp [ddbLog, hdup]
  have hle : getLastEvent [⟨"bob", 0, "camera"⟩] "bob" = some ⟨"bob", 0, "camera"⟩ := rfl
  refine ⟨hb.trans (isDuplicate_iff rows u now), ?_, ?_, ?_, ?_, ?_⟩
  · intro h
    have hdup : isDuplicate rows u now = true := hb.mp h
    simp [ddbLog, hdup]
  · intro h
    by_cases hdup : isDuplicate rows u now = true
    · simp [ddbLog, hdup] at h
    · simp [ddbLog, hdup]
  · rfl
  · have hdup : isDuplicate [⟨"bob", 0, "camera"⟩] "bob" 200 = true := by
      simp only [isDuplicate, hle, decide_eq_true_eq]
      norm_num
    simp [ddbLog, hdup]
  · have hdup : isDuplicate [⟨"bob", 0, "camera"⟩] "bob" 301 = false := by
      simp only [isDuplicate, hle, decide_eq_false_iff_not, not_lt]
      norm_num
    simp [ddbLog, hdup]

/-- C9 amended: both ledgers' query returns exactly the records matching all
the given optional filters (identity; inclusive start-of-range and
end-of-range timestamps). The cooldown ledger additionally sorts the result
by timestamp ascending, while the calendar-day ledger returns it in
backing-store scan order without sorting, so ascending order is not
guaranteed there. -/
theorem getRecords_spec (rows : List DRecord) (tbl : List ARecord)
    (fu : Option String) (fs fe : Option ℚ) :
    (∀ r, r ∈ getRecordsDdb rows fu fs fe ↔ r ∈ rows ∧ ddbMatches fu fs fe r = true) ∧
    List.Sorted recLE (getRecordsDdb rows fu fs fe) ∧
    (getRecordsDdb rows fu fs fe).Perm (rows.filter (ddbMatches fu fs fe)) ∧
    (∀ r, r ∈ attGetRecords tbl fu fs fe ↔ r ∈ tbl ∧ attMatches fu fs fe r = true) := by
  refine ⟨?_, ?_, ?_, ?_⟩
  · intro r
    rw [getRecordsDdb_eq, List.mem_insertionSort, List.mem_filter]
  · rw [getRecordsDdb_eq]
    exact List.sorted_insertionSort recLE _
  · rw [getRecordsDdb_eq]
    exact List.perm_insertionSort recLE _
  · intro r
    rw [attGetRecords, List.mem_filter]

/-- C9 counterexample: the calendar-day ledger's `get_records` does not sort.
On a table whose scan order holds the record of "ann" (t=100) before that of
"bob" (t=0) — a realizable DynamoDB scan order, since items within a
partition are ordered by the face_id sort key, not by timestamp — the
unfiltered query returns the records with timestamps out of ascending
order. -/
theorem attGetRecords_not_sorted :
    ¬ List.Sorted (fun a b : ARecord => a.time ≤ b.time)
      (attGetRecords [⟨0, "ann", 100, "camera"⟩, ⟨0, "bob", 0, "camera"⟩]
        none none none) := by
  intro h
  have he : attGetRecords [⟨0, "ann", 100, "camera"⟩, ⟨0, "bob", 0, "camera"⟩]
      none none none =
      [⟨0, "ann", 100, "camera"⟩, ⟨0, "bob", 0, "camera"⟩] := rfl
  rw [he, List.sorted_cons] at h
  have h2 := h.1 ⟨0, "bob", 0, "camera"⟩ (by simp)
  simp only at h2
  norm_num at h2

/-- C3 counterexample: `DynamoDBLogger.log` is a read (`is_duplicate`)
followed by a separate unconditional write. In the interleaving read-A,
read-B, write-A, write-B of two concurrent calls for the same identity at the
same instant, both reads see no duplicate, both writes persist, and both
calls return True — not exactly one True — leaving two records inside one
5-minute window. -/
theorem ddbLog_race_two_true :
    ddbLogRead [] "bob" 0 = false ∧
    (ddbLogWrite [] "bob" "camera" 0 (ddbLogRead [] "bob" 0)).1 = true ∧
    (ddbLogWrite (ddbLogWrite [] "bob" "camera" 0 (ddbLogRead [] "bob" 0)).2
        "bob" "camera" 0 (ddbLogRead [] "bob" 0)).1 = true ∧
    (ddbLogWrite (ddbLogWrite [] "bob" "camera" 0 (ddbLogRead [] "bob" 0)).2
        "bob" "camera" 0 (ddbLogRead [] "bob" 0)).2 =
      [⟨"bob", 0, "camera"⟩, ⟨"bob", 0, "camera"⟩] ∧
    isDuplicate [⟨"bob", 0, "camera"⟩] "bob" 0 = true := by
  refine ⟨rfl, rfl, rfl, rfl, ?_⟩
  have hle : getLastEvent [⟨"bob", 0, "camera"⟩] "bob" = some ⟨"bob", 0, "camera"⟩ := rfl
  simp only [isDuplicate, hle, decide_eq_true_eq]
  norm_num
